import Mathlib

/-!
Verification of the room/session state machine of `src/server.js`
(a socket.io chat-room backend).

JavaScript plain objects used as string-keyed dictionaries (`rooms`,
`room.users`) are modelled as association lists `List (String × α)` with
unique keys (uniqueness is part of the reachable-state invariant, and all
mutations preserve it).  `jget`, `jset`, `jdel` model property read,
property assignment and the `delete` operator.  `Object.keys` is `jkeys`,
`Object.values` is `jvals`.  `undefined` is `Option.none`.
-/

namespace Server

/-- Property read `m[k]`: the value at key `k`, `none` for `undefined`. -/
def jget {α : Type} (m : List (String × α)) (k : String) : Option α :=
  match m with
  | [] => none
  | (k', v) :: rest => if k' = k then some v else jget rest k

/-- Property assignment `m[k] = v`: replaces the value at an existing key
in place, otherwise appends the new binding (JS string-key insertion
order). -/
def jset {α : Type} (m : List (String × α)) (k : String) (v : α) :
    List (String × α) :=
  match m with
  | [] => [(k, v)]
  | (k', v') :: rest =>
    if k' = k then (k, v) :: rest else (k', v') :: jset rest k v

/-- The `delete m[k]` operator: removes the binding for `k`. -/
def jdel {α : Type} (m : List (String × α)) (k : String) :
    List (String × α) :=
  m.filter (fun p => p.1 ≠ k)

/-- `Object.keys m`. -/
def jkeys {α : Type} (m : List (String × α)) : List String :=
  m.map Prod.fst

/-- `Object.values m`. -/
def jvals {α : Type} (m : List (String × α)) : List α :=
  m.map Prod.snd

@[simp] theorem jget_nil {α : Type} (k : String) :
    jget ([] : List (String × α)) k = none := rfl

@[simp] theorem jget_cons {α : Type} (k' k : String) (v : α) (rest) :
    jget ((k', v) :: rest) k = if k' = k then some v else jget rest k := rfl

@[simp] theorem jkeys_nil {α : Type} : jkeys ([] : List (String × α)) = [] := rfl

@[simp] theorem jkeys_cons {α : Type} (k : String) (v : α) (rest) :
    jkeys ((k, v) :: rest) = k :: jkeys rest := rfl

theorem jget_eq_none_iff {α : Type} (m : List (String × α)) (k : String) :
    jget m k = none ↔ k ∉ jkeys m := by
  induction m with
  | nil => simp
  | cons p rest ih =>
    obtain ⟨k', v⟩ := p
    by_cases h : k' = k
    · subst h; simp [jget]
    · have h' : ¬ k = k' := fun hh => h hh.symm
      simp [jget, h, h', ih]

theorem jget_isSome_iff {α : Type} (m : List (String × α)) (k : String) :
    (jget m k).isSome ↔ k ∈ jkeys m := by
  rw [Option.isSome_iff_ne_none, ne_eq, jget_eq_none_iff, not_not]

theorem jget_mem {α : Type} {m : List (String × α)} {k : String} {v : α}
    (h : jget m k = some v) : (k, v) ∈ m := by
  induction m with
  | nil => simp [jget] at h
  | cons p rest ih =>
    obtain ⟨k', v'⟩ := p
    by_cases hk : k' = k
    · subst hk
      simp [jget] at h
      simp [h]
    · simp [jget, hk] at h
      exact List.mem_cons_of_mem _ (ih h)

theorem jget_mem_keys {α : Type} {m : List (String × α)} {k : String} {v : α}
    (h : jget m k = some v) : k ∈ jkeys m := by
  rw [← jget_isSome_iff, h]; rfl

@[simp] theorem jget_jset_self {α : Type} (m : List (String × α)) (k : String) (v : α) :
    jget (jset m k v) k = some v := by
  induction m with
  | nil => simp [jset, jget]
  | cons p rest ih =>
    obtain ⟨k', v'⟩ := p
    by_cases h : k' = k <;> simp [jset, jget, h, ih]

theorem jget_jset_ne {α : Type} (m : List (String × α)) (k k' : String) (v : α)
    (h : k' ≠ k) : jget (jset m k v) k' = jget m k' := by
  have hne : ¬ k = k' := fun hh => h hh.symm
  induction m with
  | nil => simp [jset, jget, hne]
  | cons p rest ih =>
    obtain ⟨k0, v0⟩ := p
    by_cases h0 : k0 = k
    · subst h0
      simp [jset, jget, hne]
    · simp [jset, jget, h0, ih]

theorem mem_jset {α : Type} {m : List (String × α)} {k : String} {v : α} {p : String × α}
    (h : p ∈ jset m k v) : p = (k, v) ∨ p ∈ m := by
  induction m with
  | nil => simp [jset] at h; simp [h]
  | cons q rest ih =>
    obtain ⟨k0, v0⟩ := q
    by_cases h0 : k0 = k
    · subst h0
      simp [jset] at h
      rcases h with h | h
      · exact Or.inl h
      · exact Or.inr (List.mem_cons_of_mem _ h)
    · simp [jset, h0] at h
      rcases h with h | h
      · exact Or.inr (by simp [h])
      · rcases ih h with h | h
        · exact Or.inl h
        · exact Or.inr (List.mem_cons_of_mem _ h)

theorem jkeys_jset_present {α : Type} {m : List (String × α)} {k : String} (v : α)
    (h : k ∈ jkeys m) : jkeys (jset m k v) = jkeys m := by
  induction m with
  | nil => simp at h
  | cons p rest ih =>
    obtain ⟨k0, v0⟩ := p
    by_cases h0 : k0 = k
    · subst h0; simp [jset]
    · simp [h0] at h
      rcases h with h | h
      · exact absurd h.symm h0
      · simp [jset, h0, ih h]

theorem jkeys_jset_absent {α : Type} {m : List (String × α)} {k : String} (v : α)
    (h : k ∉ jkeys m) : jkeys (jset m k v) = jkeys m ++ [k] := by
  induction m with
  | nil => simp [jset]
  | cons p rest ih =>
    obtain ⟨k0, v0⟩ := p
    simp at h
    have h0 : ¬ k0 = k := fun hh => h.1 hh.symm
    simp [jset, h0, ih h.2]

theorem length_jset_present {α : Type} {m : List (String × α)} {k : String} (v : α)
    (h : k ∈ jkeys m) : (jset m k v).length = m.length := by
  induction m with
  | nil => simp at h
  | cons p rest ih =>
    obtain ⟨k0, v0⟩ := p
    by_cases h0 : k0 = k
    · subst h0; simp [jset]
    · simp [h0] at h
      rcases h with h | h
      · exact absurd h.symm h0
      · simp [jset, h0, ih h]

theorem length_jset_absent {α : Type} {m : List (String × α)} {k : String} (v : α)
    (h : k ∉ jkeys m) : (jset m k v).length = m.length + 1 := by
  induction m with
  | nil => simp [jset]
  | cons p rest ih =>
    obtain ⟨k0, v0⟩ := p
    simp at h
    have h0 : ¬ k0 = k := fun hh => h.1 hh.symm
    simp [jset, h0, ih h.2]

theorem jset_eq_self {α : Type} {m : List (String × α)} {k : String} {v : α}
    (hnd : (jkeys m).Nodup) (h : jget m k = some v) : jset m k v = m := by
  induction m with
  | nil => simp [jget] at h
  | cons p rest ih =>
    obtain ⟨k0, v0⟩ := p
    simp [jkeys] at hnd
    by_cases h0 : k0 = k
    · subst h0
      simp [jget] at h
      simp [jset, h]
    · simp [jget, h0] at h
      simp [jset, h0, ih hnd.2 h]

theorem jdel_cons {α : Type} (k0 : String) (v0 : α) (rest) (k : String) :
    jdel ((k0, v0) :: rest) k =
      if k0 = k then jdel rest k else (k0, v0) :: jdel rest k := by
  by_cases h : k0 = k <;> simp [jdel, List.filter_cons, h]

@[simp] theorem jget_jdel_self {α : Type} (m : List (String × α)) (k : String) :
    jget (jdel m k) k = none := by
  induction m with
  | nil => rfl
  | cons p rest ih =>
    obtain ⟨k0, v0⟩ := p
    rw [jdel_cons]
    by_cases h0 : k0 = k
    · simp [h0, ih]
    · simp [jget, h0, ih]

theorem jget_jdel_ne {α : Type} (m : List (String × α)) (k k' : String)
    (h : k' ≠ k) : jget (jdel m k) k' = jget m k' := by
  have hne : ¬ k = k' := fun hh => h hh.symm
  induction m with
  | nil => rfl
  | cons p rest ih =>
    obtain ⟨k0, v0⟩ := p
    rw [jdel_cons]
    by_cases h0 : k0 = k
    · subst h0
      simp [jget, hne, ih]
    · by_cases h1 : k0 = k' <;> simp [jget, h0, h1, h, ih]

theorem mem_jdel {α : Type} {m : List (String × α)} {k : String} {p : String × α}
    (h : p ∈ jdel m k) : p ∈ m := List.mem_of_mem_filter h

theorem jkeys_jdel {α : Type} (m : List (String × α)) (k : String) :
    jkeys (jdel m k) = (jkeys m).filter (fun k' => k' ≠ k) := by
  induction m with
  | nil => rfl
  | cons p rest ih =>
    obtain ⟨k0, v0⟩ := p
    rw [jdel_cons]
    by_cases h0 : k0 = k <;> simp [List.filter_cons, h0, ih]

theorem nodup_jkeys_jdel {α : Type} {m : List (String × α)} (k : String)
    (h : (jkeys m).Nodup) : (jkeys (jdel m k)).Nodup := by
  rw [jkeys_jdel]; exact h.filter _

theorem length_jdel_le {α : Type} (m : List (String × α)) (k : String) :
    (jdel m k).length ≤ m.length :=
  List.length_filter_le _ _

theorem nodup_jkeys_jset {α : Type} {m : List (String × α)} {k : String} (v : α)
    (h : (jkeys m).Nodup) : (jkeys (jset m k v)).Nodup := by
  by_cases hk : k ∈ jkeys m
  · rw [jkeys_jset_present v hk]; exact h
  · rw [jkeys_jset_absent v hk]
    simp [List.nodup_append, h, hk]

/-! ## Data model (the comment block at the top of `server.js` and the
per-socket `socket.data` scratch fields). -/

/-- One entry of `room.users`: `{ username, socketIds }`. -/
structure UserEntry where
  username : String
  socketIds : List String
deriving Repr, DecidableEq

/-- One chat message `{ username, message, time }` as built in the
`chatMessage` handler (`message` is already trimmed there). -/
structure ChatMsg where
  username : String
  message : String
  time : Nat
deriving Repr, DecidableEq

/-- A room: `{ users, messages, createdAt }`; `users` is a JS object keyed
by username. -/
structure Room where
  users : List (String × UserEntry)
  messages : List ChatMsg
  createdAt : Nat
deriving Repr, DecidableEq

/-- The scratch fields the handlers keep on `socket.data`
(`currentRoomCode` and `username`); `none` models `undefined`. -/
structure SocketData where
  currentRoomCode : Option String
  username : Option String
deriving Repr, DecidableEq

/-- The whole mutable state: the module-level `rooms` object plus the
per-socket `socket.data` table (keyed by `socket.id`). -/
structure ServerState where
  rooms : List (String × Room)
  sockets : List (String × SocketData)
deriving Repr, DecidableEq

/-- The state before any event: `const rooms = {}` and no socket data. -/
def initialState : ServerState := { rooms := [], sockets := [] }

/-- One element of the list sent in a `roomUpdate` broadcast:
`{ id: userEntry.socketIds[0], username }`.  In JS, indexing an empty
array yields `undefined`, hence the `Option`. -/
structure FrontendUser where
  id : Option String
  username : String
deriving Repr, DecidableEq

/-- `getFrontendUsers(room)`: maps `Object.values(room.users)` to the
frontend shape.  (The `!room || !room.users` guard of the source is
vacuous here: a `Room` value always carries a `users` field.) -/
def getFrontendUsers (room : Room) : List FrontendUser :=
  (jvals room.users).map fun ue => { id := ue.socketIds.head?, username := ue.username }

/-- Acknowledgment sent through an event's `callback`. -/
inductive Ack where
  /-- `{ success: true, roomCode }` -/
  | okRoom (roomCode : String)
  /-- `{ success: true }` -/
  | ok
  /-- `{ success: false, error }` -/
  | err (error : String)
deriving Repr, DecidableEq

/-- A broadcast emitted with `io.to(roomCode).emit(...)`. -/
inductive Emit where
  /-- `roomUpdate` with the frontend user list -/
  | roomUpdate (roomCode : String) (users : List FrontendUser)
  /-- `chatMessage` with the stored message -/
  | chatMessage (roomCode : String) (msg : ChatMsg)
deriving Repr, DecidableEq

/-! ## Room-code generation (`createRoom`, lines 64-67)

`Math.random().toString(36).substring(2, 8).toUpperCase()`.

`Math.random()` returns a float in `[0,1)`; `toString(36)` prints it as
`"0"` when it is zero and as `"0."` followed by base-36 fraction digits
otherwise.  We model one call of `Math.random().toString(36)` by the list
of base-36 fraction digits it prints (empty for zero), supplied by an
oracle `rand : Nat → List (Fin 36)` giving the digits of the n-th call.
`substring(2, 8)` keeps at most the first 6 fraction digits and
`toUpperCase` uppercases them. -/

/-- The character JavaScript prints for one base-36 digit
(`0-9` then `a-z`). -/
def base36Char (d : Fin 36) : Char :=
  if d.val < 10 then Char.ofNat (48 + d.val) else Char.ofNat (97 + (d.val - 10))

/-- `.substring(2, 8).toUpperCase()` applied to `"0." ++ digits`
(or to `"0"` when the digit list is empty). -/
def codeOfRandom (ds : List (Fin 36)) : String :=
  String.mk ((ds.take 6).map (fun d => (base36Char d).toUpper))

/-- The `do ... while (rooms[roomCode])` generation loop, with explicit
fuel (the source loop is unbounded; it stops at the first code not
already a key of `rooms`).  `n` indexes the oracle. -/
def genRoomCode (rand : Nat → List (Fin 36)) (rooms : List (String × Room)) :
    Nat → Nat → Option String
  | _, 0 => none
  | n, fuel + 1 =>
    let code := codeOfRandom (rand n)
    if (jget rooms code).isSome then genRoomCode rand rooms (n + 1) fuel
    else some code

/-! ## Event handlers -/

/-- The body of the `createRoom` handler after the generation loop has
produced `roomCode` (lines 69-90): installs the new room with the creator
as its single user, records the association on `socket.data`, acks
success and broadcasts the roster to the new room. -/
def createRoomCore (st : ServerState) (sid username roomCode : String)
    (now : Nat) : ServerState × Ack × List Emit :=
  let room : Room :=
    { users := [(username, { username := username, socketIds := [sid] })]
      messages := []
      createdAt := now }
  ({ rooms := jset st.rooms roomCode room
     sockets := jset st.sockets sid
       { currentRoomCode := some roomCode, username := some username } },
   Ack.okRoom roomCode,
   [Emit.roomUpdate roomCode (getFrontendUsers room)])

/-- The full `createRoom` handler (lines 62-95): runs the generation loop
(`none` when the fuel runs out), then the core body. -/
def createRoom (rand : Nat → List (Fin 36)) (fuel : Nat) (st : ServerState)
    (sid username : String) (now : Nat) :
    Option (ServerState × Ack × List Emit) :=
  (genRoomCode rand st.rooms 0 fuel).map
    fun roomCode => createRoomCore st sid username roomCode now

/-- The `joinRoom` handler (lines 98-141). -/
def joinRoom (st : ServerState) (sid roomCode username : String) :
    ServerState × Ack × List Emit :=
  match jget st.rooms roomCode with
  | none => (st, Ack.err "Room not found", [])
  | some room =>
    if 4 ≤ (jkeys room.users).length ∧ jget room.users username = none then
      (st, Ack.err "Room is full", [])
    else
      let room' : Room :=
        match jget room.users username with
        | some ue =>
          if sid ∈ ue.socketIds then room
          else
            { room with
              users := jset room.users username
                { ue with socketIds := ue.socketIds ++ [sid] } }
        | none =>
          { room with
            users := jset room.users username
              { username := username, socketIds := [sid] } }
      ({ rooms := jset st.rooms roomCode room'
         sockets := jset st.sockets sid
           { currentRoomCode := some roomCode, username := some username } },
       Ack.okRoom roomCode,
       [Emit.roomUpdate roomCode (getFrontendUsers room')])

/-- The `leaveRoom` handler (lines 144-181).  The guard is
`room && username && room.users[username]`; `username` comes from
`socket.data`, and as a string it is truthy iff non-empty.  On the guarded
path the socket's entry is removed from the user's list, the user is
dropped when its list empties, the socket association is cleared, and the
room is deleted when its user map empties (broadcasting otherwise).  The
ack is `{ success: true }` on every non-throwing path. -/
def leaveRoom (st : ServerState) (sid roomCode : String) :
    ServerState × Ack × List Emit :=
  match jget st.rooms roomCode, (jget st.sockets sid).bind SocketData.username with
  | some room, some username =>
    if username = "" then (st, Ack.ok, [])
    else
      match jget room.users username with
      | some ue =>
        let ids' := ue.socketIds.filter (fun i => i ≠ sid)
        let users' :=
          if ids'.length = 0 then jdel room.users username
          else jset room.users username { ue with socketIds := ids' }
        let sockets' := jset st.sockets sid
          { currentRoomCode := none, username := none }
        if users'.length = 0 then
          ({ rooms := jdel st.rooms roomCode, sockets := sockets' }, Ack.ok, [])
        else
          let room' : Room := { room with users := users' }
          ({ rooms := jset st.rooms roomCode room', sockets := sockets' },
           Ack.ok,
           [Emit.roomUpdate roomCode (getFrontendUsers room')])
      | none => (st, Ack.ok, [])
  | _, _ => (st, Ack.ok, [])

/-- JavaScript `String.prototype.trim()`: strip leading and trailing
whitespace. -/
def jsTrim (s : String) : String :=
  String.mk (((s.data.dropWhile Char.isWhitespace).reverse.dropWhile
    Char.isWhitespace).reverse)

/-- The `chatMessage` handler (lines 184-212).  The event has no
callback, so the result carries no `Ack`: validation failures return with
the state unchanged and nothing emitted. -/
def chatMessage (st : ServerState) (sid roomCode username message : String)
    (now : Nat) : ServerState × List Emit :=
  match jget st.rooms roomCode with
  | none => (st, [])
  | some room =>
    match jget room.users username with
    | none => (st, [])
    | some ue =>
      if sid ∈ ue.socketIds then
        let msg : ChatMsg := { username := username, message := jsTrim message, time := now }
        let pushed := room.messages ++ [msg]
        let messages' :=
          if 100 < pushed.length then pushed.drop (pushed.length - 100)
          else pushed
        let room' : Room := { room with messages := messages' }
        ({ st with rooms := jset st.rooms roomCode room' },
         [Emit.chatMessage roomCode msg])
      else (st, [])

/-- The `disconnect` handler (lines 215-248).  The guard is
`roomCode && rooms[roomCode] && username && rooms[roomCode].users[username]`
on the values stored in `socket.data` (strings are truthy iff non-empty).
`socket.data` itself is not touched: the socket object is gone. -/
def disconnect (st : ServerState) (sid : String) : ServerState × List Emit :=
  match jget st.sockets sid with
  | none => (st, [])
  | some data =>
    match data.currentRoomCode, data.username with
    | some roomCode, some username =>
      if roomCode = "" ∨ username = "" then (st, [])
      else
        match jget st.rooms roomCode with
        | none => (st, [])
        | some room =>
          match jget room.users username with
          | none => (st, [])
          | some ue =>
            let ids' := ue.socketIds.filter (fun i => i ≠ sid)
            let users' :=
              if ids'.length = 0 then jdel room.users username
              else jset room.users username { ue with socketIds := ids' }
            if users'.length = 0 then
              ({ st with rooms := jdel st.rooms roomCode }, [])
            else
              let room' : Room := { room with users := users' }
              ({ st with rooms := jset st.rooms roomCode room' },
               [Emit.roomUpdate roomCode (getFrontendUsers room')])
    | _, _ => (st, [])

/-! ## Events and reachability -/

/-- One inbound event, tagged with the socket it arrives on.  For
`create`, `roomCode` is the code produced by the generation loop and
`now` the value of `Date.now()`. -/
inductive Event where
  | create (sid username roomCode : String) (now : Nat)
  | join (sid roomCode username : String)
  | leave (sid roomCode : String)
  | chat (sid roomCode username message : String) (now : Nat)
  | disc (sid : String)
deriving Repr, DecidableEq

/-- Run one event handler, keeping the state and the broadcasts. -/
def applyEvent (st : ServerState) : Event → ServerState × List Emit
  | .create sid username roomCode now =>
    ((createRoomCore st sid username roomCode now).1,
     (createRoomCore st sid username roomCode now).2.2)
  | .join sid roomCode username =>
    ((joinRoom st sid roomCode username).1,
     (joinRoom st sid roomCode username).2.2)
  | .leave sid roomCode =>
    ((leaveRoom st sid roomCode).1, (leaveRoom st sid roomCode).2.2)
  | .chat sid roomCode username message now =>
    chatMessage st sid roomCode username message now
  | .disc sid => disconnect st sid

/-- Side condition under which an event fires: for `create`, the
generation loop only hands the handler body a code that is not yet a key
of `rooms` (`genRoomCode_not_in_store` below); the other events have no
side condition. -/
def EventOk (st : ServerState) : Event → Prop
  | .create _ _ roomCode _ => roomCode ∉ jkeys st.rooms
  | _ => True

/-- States reachable from the empty initial state by event handlers. -/
inductive Reachable : ServerState → Prop where
  | init : Reachable initialState
  | step (st : ServerState) (ev : Event) (h : Reachable st)
      (hok : EventOk st ev) : Reachable (applyEvent st ev).1

/-! ## The state invariant -/

/-- Per-room invariant: usernames key the map uniquely, the map is
non-empty, every entry's `username` field matches its key and its
`socketIds` list is non-empty, at most 4 users, at most 100 buffered
messages. -/
def RoomInv (room : Room) : Prop :=
  (jkeys room.users).Nodup ∧
  room.users ≠ [] ∧
  (∀ p ∈ room.users, p.2.username = p.1 ∧ p.2.socketIds ≠ []) ∧
  room.users.length ≤ 4 ∧
  room.messages.length ≤ 100

/-- Global invariant: room codes key the store uniquely and every stored
room satisfies `RoomInv`. -/
def StateInv (st : ServerState) : Prop :=
  (jkeys st.rooms).Nodup ∧ ∀ p ∈ st.rooms, RoomInv p.2

theorem stateInv_initial : StateInv initialState := by
  constructor <;> simp [initialState, jkeys]

theorem jset_ne_nil {α : Type} (m : List (String × α)) (k : String) (v : α) :
    jset m k v ≠ [] := by
  cases m with
  | nil => simp [jset]
  | cons p rest =>
    obtain ⟨k0, v0⟩ := p
    by_cases h : k0 = k <;> simp [jset, h]

theorem roomInv_of_jget {st : ServerState} {rc : String} {room : Room}
    (h : StateInv st) (hget : jget st.rooms rc = some room) : RoomInv room :=
  h.2 _ (jget_mem hget)

theorem stateInv_createRoomCore (st : ServerState) (sid username roomCode : String)
    (now : Nat) (h : StateInv st) :
    StateInv (createRoomCore st sid username roomCode now).1 := by
  refine ⟨?_, ?_⟩
  · exact nodup_jkeys_jset _ h.1
  · intro p hp
    rcases mem_jset hp with hp | hp
    · subst hp
      refine ⟨by simp [jkeys], by simp, ?_, by simp, by simp⟩
      intro q hq
      simp at hq
      simp [hq]
    · exact h.2 p hp

theorem stateInv_set_room {st : ServerState} {roomCode : String} {room' : Room}
    (h : StateInv st) (hmem : roomCode ∈ jkeys st.rooms) (hinv : RoomInv room')
    (sockets' : List (String × SocketData)) :
    StateInv { rooms := jset st.rooms roomCode room', sockets := sockets' } := by
  refine ⟨?_, ?_⟩
  · rw [jkeys_jset_present _ hmem]
    exact h.1
  · intro p hp
    rcases mem_jset hp with hp | hp
    · subst hp
      exact hinv
    · exact h.2 p hp

theorem stateInv_del_room {st : ServerState} (roomCode : String)
    (h : StateInv st) (sockets' : List (String × SocketData)) :
    StateInv { rooms := jdel st.rooms roomCode, sockets := sockets' } :=
  ⟨nodup_jkeys_jdel _ h.1, fun p hp => h.2 p (mem_jdel hp)⟩

theorem roomInv_mk {users : List (String × UserEntry)} {msgs : List ChatMsg} {t : Nat}
    (h1 : (jkeys users).Nodup) (h2 : users ≠ [])
    (h3 : ∀ p ∈ users, p.2.username = p.1 ∧ p.2.socketIds ≠ [])
    (h4 : users.length ≤ 4) (h5 : msgs.length ≤ 100) :
    RoomInv { users := users, messages := msgs, createdAt := t } :=
  ⟨h1, h2, h3, h4, h5⟩

theorem stateInv_chatMessage (st : ServerState) (sid roomCode username message : String)
    (now : Nat) (h : StateInv st) :
    StateInv (chatMessage st sid roomCode username message now).1 := by
  unfold chatMessage
  split
  · exact h
  · next room hroom =>
    split
    · exact h
    · next ue hue =>
      split
      · next hsid =>
        obtain ⟨hnd, hne, hent, hlen, hmsg⟩ := roomInv_of_jget h hroom
        refine ⟨?_, ?_⟩
        · dsimp only
          rw [jkeys_jset_present _ (jget_mem_keys hroom)]
          exact h.1
        · intro p hp
          dsimp only at hp
          rcases mem_jset hp with hp | hp
          · subst hp
            refine ⟨hnd, hne, hent, hlen, ?_⟩
            dsimp only
            split
            · next hgt =>
              rw [List.length_drop]
              omega
            · next hgt =>
              simp at hgt ⊢
              omega
          · exact h.2 p hp
      · exact h

theorem stateInv_joinRoom (st : ServerState) (sid roomCode username : String)
    (h : StateInv st) : StateInv (joinRoom st sid roomCode username).1 := by
  unfold joinRoom
  split
  · exact h
  · next room hroom =>
    split
    · exact h
    · next hfull =>
      obtain ⟨hnd, hne, hent, hlen, hmsg⟩ := roomInv_of_jget h hroom
      dsimp only
      apply stateInv_set_room h (jget_mem_keys hroom) ?_
      split
      · next ue hue =>
        split
        · next hsid => exact roomInv_of_jget h hroom
        · next hsid =>
          have humem := jget_mem_keys hue
          have hueprops := hent _ (jget_mem hue)
          refine ⟨?_, jset_ne_nil _ _ _, ?_, ?_, hmsg⟩
          · rw [jkeys_jset_present _ humem]
            exact hnd
          · intro p hp
            rcases mem_jset hp with hp | hp
            · subst hp
              exact ⟨hueprops.1, by simp⟩
            · exact hent p hp
          · rw [length_jset_present _ humem]
            exact hlen
      · next hue =>
        have habs : username ∉ jkeys room.users := (jget_eq_none_iff _ _).1 hue
        have hlt : ¬ 4 ≤ (jkeys room.users).length := fun hge => hfull ⟨hge, hue⟩
        have hlen' : room.users.length < 4 := by
          have : (jkeys room.users).length = room.users.length := List.length_map _ _
          omega
        refine ⟨?_, jset_ne_nil _ _ _, ?_, ?_, hmsg⟩
        · rw [jkeys_jset_absent _ habs]
          simp [List.nodup_append, hnd, habs]
        · intro p hp
          rcases mem_jset hp with hp | hp
          · subst hp
            exact ⟨rfl, by simp⟩
          · exact hent p hp
        · rw [length_jset_absent _ habs]
          omega

theorem stateInv_leaveRoom (st : ServerState) (sid roomCode : String)
    (h : StateInv st) : StateInv (leaveRoom st sid roomCode).1 := by
  unfold leaveRoom
  split
  · next room username hroom hname =>
    split
    · exact h
    · next hblank =>
      split
      · next ue hue =>
        obtain ⟨hnd, hne, hent, hlen, hmsg⟩ := roomInv_of_jget h hroom
        have hueprops := hent _ (jget_mem hue)
        by_cases hids : (ue.socketIds.filter (fun i => i ≠ sid)).length = 0
        · simp only [hids, if_true, reduceIte]
          split
          · exact stateInv_del_room _ h _
          · next husers =>
            apply stateInv_set_room h (jget_mem_keys hroom) ?_
            refine roomInv_mk (nodup_jkeys_jdel _ hnd) ?_ ?_ ?_ hmsg
            · intro hnil
              rw [hnil] at husers
              exact husers rfl
            · intro p hp
              exact hent p (mem_jdel hp)
            · exact le_trans (length_jdel_le _ _) hlen
        · simp only [hids, reduceIte]
          split
          · exact stateInv_del_room _ h _
          · next husers =>
            apply stateInv_set_room h (jget_mem_keys hroom) ?_
            refine roomInv_mk ?_ (jset_ne_nil _ _ _) ?_ ?_ hmsg
            · rw [jkeys_jset_present _ (jget_mem_keys hue)]
              exact hnd
            · intro p hp
              rcases mem_jset hp with hp | hp
              · subst hp
                refine ⟨hueprops.1, ?_⟩
                dsimp only
                intro hnil
                rw [hnil] at hids
                exact hids rfl
              · exact hent p hp
            · rw [length_jset_present _ (jget_mem_keys hue)]
              exact hlen
      · exact h
  · exact h

theorem stateInv_disconnect (st : ServerState) (sid : String)
    (h : StateInv st) : StateInv (disconnect st sid).1 := by
  unfold disconnect
  split
  · exact h
  · next data hdata =>
    split
    · next roomCode username hrc hun =>
      split
      · exact h
      · next hblank =>
        split
        · exact h
        · next room hroom =>
          split
          · exact h
          · next ue hue =>
            obtain ⟨hnd, hne, hent, hlen, hmsg⟩ := roomInv_of_jget h hroom
            have hueprops := hent _ (jget_mem hue)
            by_cases hids : (ue.socketIds.filter (fun i => i ≠ sid)).length = 0
            · simp only [hids, if_true, reduceIte]
              split
              · exact ⟨nodup_jkeys_jdel _ h.1, fun p hp => h.2 p (mem_jdel hp)⟩
              · next husers =>
                apply stateInv_set_room h (jget_mem_keys hroom) ?_
                refine roomInv_mk (nodup_jkeys_jdel _ hnd) ?_ ?_ ?_ hmsg
                · intro hnil
                  rw [hnil] at husers
                  exact husers rfl
                · intro p hp
                  exact hent p (mem_jdel hp)
                · exact le_trans (length_jdel_le _ _) hlen
            · simp only [hids, reduceIte]
              split
              · exact ⟨nodup_jkeys_jdel _ h.1, fun p hp => h.2 p (mem_jdel hp)⟩
              · next husers =>
                apply stateInv_set_room h (jget_mem_keys hroom) ?_
                refine roomInv_mk ?_ (jset_ne_nil _ _ _) ?_ ?_ hmsg
                · rw [jkeys_jset_present _ (jget_mem_keys hue)]
                  exact hnd
                · intro p hp
                  rcases mem_jset hp with hp | hp
                  · subst hp
                    refine ⟨hueprops.1, ?_⟩
                    dsimp only
                    intro hnil
                    rw [hnil] at hids
                    exact hids rfl
                  · exact hent p hp
                · rw [length_jset_present _ (jget_mem_keys hue)]
                  exact hlen
    · exact h

theorem stateInv_applyEvent (st : ServerState) (ev : Event)
    (h : StateInv st) : StateInv (applyEvent st ev).1 := by
  cases ev with
  | create sid username roomCode now => exact stateInv_createRoomCore st sid username roomCode now h
  | join sid roomCode username => exact stateInv_joinRoom st sid roomCode username h
  | leave sid roomCode => exact stateInv_leaveRoom st sid roomCode h
  | chat sid roomCode username message now => exact stateInv_chatMessage st sid roomCode username message now h
  | disc sid => exact stateInv_disconnect st sid h

theorem reachable_stateInv (st : ServerState) (h : Reachable st) : StateInv st := by
  induction h with
  | init => exact stateInv_initial
  | step st ev hr hok ih => exact stateInv_applyEvent st ev ih

/-! ## Facts about room-code generation -/

/-- An uppercase ASCII letter or a decimal digit. -/
def isUpperAlnum (c : Char) : Prop :=
  (65 ≤ c.toNat ∧ c.toNat ≤ 90) ∨ (48 ≤ c.toNat ∧ c.toNat ≤ 57)

instance (c : Char) : Decidable (isUpperAlnum c) := by
  unfold isUpperAlnum
  infer_instance

theorem base36Char_upper_alnum : ∀ d : Fin 36, isUpperAlnum (base36Char d).toUpper := by
  decide

theorem codeOfRandom_length_le (ds : List (Fin 36)) :
    (codeOfRandom ds).length ≤ 6 := by
  unfold codeOfRandom
  show ((ds.take 6).map _).length ≤ 6
  rw [List.length_map, List.length_take]
  omega

theorem codeOfRandom_chars (ds : List (Fin 36)) :
    ∀ c ∈ (codeOfRandom ds).data, isUpperAlnum c := by
  intro c hc
  have hc' : c ∈ (ds.take 6).map (fun d => (base36Char d).toUpper) := hc
  obtain ⟨d, _, rfl⟩ := List.mem_map.mp hc'
  exact base36Char_upper_alnum d

theorem genRoomCode_spec (rand : Nat → List (Fin 36)) (rooms : List (String × Room))
    (n fuel : Nat) (code : String)
    (h : genRoomCode rand rooms n fuel = some code) :
    code ∉ jkeys rooms ∧ code.length ≤ 6 ∧ (∀ c ∈ code.data, isUpperAlnum c) ∧
      ∃ m, code = codeOfRandom (rand m) := by
  induction fuel generalizing n with
  | zero => simp [genRoomCode] at h
  | succ fuel ih =>
    simp only [genRoomCode] at h
    split at h
    · exact ih (n + 1) h
    · next hfresh =>
      obtain rfl : codeOfRandom (rand n) = code := by
        simpa using h
      refine ⟨?_, codeOfRandom_length_le _, codeOfRandom_chars _, n, rfl⟩
      rw [← jget_eq_none_iff]
      exact Option.not_isSome_iff_eq_none.mp hfresh

theorem codeOfRandom_length_eq (ds : List (Fin 36)) (h : 6 ≤ ds.length) :
    (codeOfRandom ds).length = 6 := by
  unfold codeOfRandom
  show ((ds.take 6).map _).length = 6
  rw [List.length_map, List.length_take]
  omega

/-! ## The roster broadcast -/

theorem frontend_usernames (users : List (String × UserEntry))
    (hent : ∀ p ∈ users, p.2.username = p.1) :
    (jvals users).map (fun ue => ue.username) = jkeys users := by
  induction users with
  | nil => rfl
  | cons p rest ih =>
    obtain ⟨k, ue⟩ := p
    simp only [jvals, jkeys, List.map_cons] at ih ⊢
    have h1 := (hent (k, ue) (by simp)).symm
    rw [← h1] at *
    exact congrArg _ (ih fun q hq => hent q (List.mem_cons_of_mem _ hq))

theorem getFrontendUsers_usernames (room : Room)
    (hent : ∀ p ∈ room.users, p.2.username = p.1) :
    (getFrontendUsers room).map FrontendUser.username = jkeys room.users := by
  unfold getFrontendUsers
  rw [List.map_map]
  exact frontend_usernames room.users hent

/-- Core roster property of `getFrontendUsers` on a room satisfying the
invariant: the listed usernames are duplicate-free and are exactly the
usernames whose entry has a non-empty connection list. -/
theorem getFrontendUsers_exact (room : Room)
    (hnd : (jkeys room.users).Nodup)
    (hent : ∀ p ∈ room.users, p.2.username = p.1 ∧ p.2.socketIds ≠ []) :
    ((getFrontendUsers room).map FrontendUser.username).Nodup ∧
    ∀ u, (u ∈ (getFrontendUsers room).map FrontendUser.username ↔
      ∃ ue, jget room.users u = some ue ∧ ue.socketIds ≠ []) := by
  have hnames := getFrontendUsers_usernames room (fun p hp => (hent p hp).1)
  rw [hnames]
  refine ⟨hnd, ?_⟩
  intro u
  constructor
  · intro hu
    obtain ⟨ue, hue⟩ := Option.isSome_iff_exists.mp ((jget_isSome_iff _ _).mpr hu)
    exact ⟨ue, hue, (hent (u, ue) (jget_mem hue)).2⟩
  · rintro ⟨ue, hue, -⟩
    exact jget_mem_keys hue

/-- Every `roomUpdate` broadcast an event emits carries the frontend view
of the room as it is in the post-state. -/
theorem applyEvent_roomUpdate (st : ServerState) (ev : Event) (rc : String)
    (us : List FrontendUser) :
    Emit.roomUpdate rc us ∈ (applyEvent st ev).2 →
    ∃ room, jget (applyEvent st ev).1.rooms rc = some room ∧
      us = getFrontendUsers room := by
  cases ev with
  | create sid username roomCode now =>
    show Emit.roomUpdate rc us ∈ (createRoomCore st sid username roomCode now).2.2 →
      ∃ room, jget (createRoomCore st sid username roomCode now).1.rooms rc = some room ∧
        us = getFrontendUsers room
    unfold createRoomCore
    intro hmem
    simp only [List.mem_singleton, Emit.roomUpdate.injEq] at hmem
    obtain ⟨rfl, rfl⟩ := hmem
    exact ⟨_, jget_jset_self _ _ _, rfl⟩
  | join sid roomCode username =>
    show Emit.roomUpdate rc us ∈ (joinRoom st sid roomCode username).2.2 →
      ∃ room, jget (joinRoom st sid roomCode username).1.rooms rc = some room ∧
        us = getFrontendUsers room
    unfold joinRoom
    split
    · intro hmem
      simp at hmem
    · split
      · intro hmem
        simp at hmem
      · intro hmem
        simp only [List.mem_singleton, Emit.roomUpdate.injEq] at hmem
        obtain ⟨rfl, rfl⟩ := hmem
        exact ⟨_, jget_jset_self _ _ _, rfl⟩
  | leave sid roomCode =>
    show Emit.roomUpdate rc us ∈ (leaveRoom st sid roomCode).2.2 →
      ∃ room, jget (leaveRoom st sid roomCode).1.rooms rc = some room ∧
        us = getFrontendUsers room
    unfold leaveRoom
    split
    · split
      · intro hmem
        simp at hmem
      · split
        · dsimp only
          split
          · split
            · intro hmem
              simp at hmem
            · intro hmem
              simp only [List.mem_singleton, Emit.roomUpdate.injEq] at hmem
              obtain ⟨rfl, rfl⟩ := hmem
              exact ⟨_, jget_jset_self _ _ _, rfl⟩
          · split
            · intro hmem
              simp at hmem
            · intro hmem
              simp only [List.mem_singleton, Emit.roomUpdate.injEq] at hmem
              obtain ⟨rfl, rfl⟩ := hmem
              exact ⟨_, jget_jset_self _ _ _, rfl⟩
        · intro hmem
          simp at hmem
    · intro hmem
      simp at hmem
  | chat sid roomCode username message now =>
    show Emit.roomUpdate rc us ∈ (chatMessage st sid roomCode username message now).2 →
      ∃ room, jget (chatMessage st sid roomCode username message now).1.rooms rc = some room ∧
        us = getFrontendUsers room
    unfold chatMessage
    split
    · intro hmem
      simp at hmem
    · split
      · intro hmem
        simp at hmem
      · split
        · intro hmem
          simp at hmem
        · intro hmem
          simp at hmem
  | disc sid =>
    show Emit.roomUpdate rc us ∈ (disconnect st sid).2 →
      ∃ room, jget (disconnect st sid).1.rooms rc = some room ∧
        us = getFrontendUsers room
    unfold disconnect
    split
    · intro hmem
      simp at hmem
    · split
      · split
        · intro hmem
          simp at hmem
        · split
          · intro hmem
            simp at hmem
          · split
            · intro hmem
              simp at hmem
            · dsimp only
              split
              · split
                · intro hmem
                  simp at hmem
                · intro hmem
                  simp only [List.mem_singleton, Emit.roomUpdate.injEq] at hmem
                  obtain ⟨rfl, rfl⟩ := hmem
                  exact ⟨_, jget_jset_self _ _ _, rfl⟩
              · split
                · intro hmem
                  simp at hmem
                · intro hmem
                  simp only [List.mem_singleton, Emit.roomUpdate.injEq] at hmem
                  obtain ⟨rfl, rfl⟩ := hmem
                  exact ⟨_, jget_jset_self _ _ _, rfl⟩
      · intro hmem
        simp at hmem

/-! ## The claims -/

/-- C1: for every reachable state, the roster broadcast emitted after any
membership-changing event lists exactly one entry per username whose
entry in the post-state room has at least one connection id: no username
with an empty connection set, no present username missing, and no
duplicate entry. -/
theorem roster_broadcast_exact (st : ServerState) (ev : Event)
    (h : Reachable st) (hok : EventOk st ev) (rc : String)
    (us : List FrontendUser)
    (hmem : Emit.roomUpdate rc us ∈ (applyEvent st ev).2) :
    ∃ room, jget (applyEvent st ev).1.rooms rc = some room ∧
      (us.map FrontendUser.username).Nodup ∧
      ∀ u, (u ∈ us.map FrontendUser.username ↔
        ∃ ue, jget room.users u = some ue ∧ ue.socketIds ≠ []) := by
  obtain ⟨room, hroom, rfl⟩ := applyEvent_roomUpdate st ev rc us hmem
  have hpost := reachable_stateInv _ (Reachable.step st ev h hok)
  obtain ⟨hnd, hne, hent, h4, h100⟩ := hpost.2 _ (jget_mem hroom)
  obtain ⟨hnodup, hiff⟩ := getFrontendUsers_exact room hnd hent
  exact ⟨room, hroom, hnodup, hiff⟩

/-- Witness for C1: the roster broadcast by a concrete `createRoom`. -/
theorem roster_broadcast_exact_witness :
    ∃ room,
      jget (applyEvent initialState (Event.create "s1" "alice" "ABC123" 0)).1.rooms
        "ABC123" = some room ∧
      (([{ id := some "s1", username := "alice" }] : List FrontendUser).map
        FrontendUser.username).Nodup ∧
      ∀ u, (u ∈ ([{ id := some "s1", username := "alice" }] : List FrontendUser).map
          FrontendUser.username ↔
        ∃ ue, jget room.users u = some ue ∧ ue.socketIds ≠ []) :=
  roster_broadcast_exact initialState (Event.create "s1" "alice" "ABC123" 0)
    Reachable.init (List.not_mem_nil _) "ABC123"
    [{ id := some "s1", username := "alice" }] (by decide)

/-- C3: in every reachable state no stored room has an empty users
mapping, and every stored user entry has a non-empty connection list. -/
theorem rooms_users_never_empty (st : ServerState) (h : Reachable st) :
    ∀ p ∈ st.rooms, p.2.users ≠ [] ∧ ∀ q ∈ p.2.users, q.2.socketIds ≠ [] := by
  intro p hp
  obtain ⟨_, hne, hent, _, _⟩ := (reachable_stateInv st h).2 p hp
  exact ⟨hne, fun q hq => (hent q hq).2⟩

/-- Witness for C3 on a concrete reachable state, at its concrete room
and user entry. -/
theorem rooms_users_never_empty_witness :
    (⟨[("alice", ⟨"alice", ["s1"]⟩)], [], 0⟩ : Room).users ≠ [] ∧
    (⟨"alice", ["s1"]⟩ : UserEntry).socketIds ≠ [] := by
  have h := rooms_users_never_empty _
    (Reachable.step initialState (Event.create "s1" "alice" "ABC123" 0)
      Reachable.init (List.not_mem_nil _))
    ("ABC123", ⟨[("alice", ⟨"alice", ["s1"]⟩)], [], 0⟩) (by decide)
  exact ⟨h.1, h.2 ("alice", ⟨"alice", ["s1"]⟩) (by decide)⟩

/-- C4: a `chatMessage` whose sending connection is not a valid
participant (room code unresolved, username without an entry, or socket
id not in the username's connection list) leaves the state unchanged and
emits nothing; the event has no callback, so no error reaches the
sender. -/
theorem chatMessage_invalid_silent (st : ServerState)
    (sid roomCode username message : String) (now : Nat)
    (h : ¬ ∃ room ue, jget st.rooms roomCode = some room ∧
      jget room.users username = some ue ∧ sid ∈ ue.socketIds) :
    chatMessage st sid roomCode username message now = (st, []) := by
  unfold chatMessage
  split
  · rfl
  · next room hroom =>
    split
    · rfl
    · next ue hue =>
      split
      · next hsid => exact absurd ⟨room, ue, hroom, hue, hsid⟩ h
      · rfl

/-- Witness for C4: a message from a socket that is not in the claimed
username's connection list is dropped silently. -/
theorem chatMessage_invalid_silent_witness :
    chatMessage
      (applyEvent initialState (Event.create "s1" "alice" "ABC123" 0)).1
      "s2" "ABC123" "alice" "hi" 5 =
      ((applyEvent initialState (Event.create "s1" "alice" "ABC123" 0)).1, []) :=
  chatMessage_invalid_silent _ "s2" "ABC123" "alice" "hi" 5
    (by
      rintro ⟨room, ue, hroom, hue, hsid⟩
      have h1 : some (⟨[("alice", ⟨"alice", ["s1"]⟩)], [], 0⟩ : Room) = some room := hroom
      obtain rfl := Option.some.inj h1
      have h2 : some (⟨"alice", ["s1"]⟩ : UserEntry) = some ue := hue
      obtain rfl := Option.some.inj h2
      simp at hsid)

/-- C6: `joinRoom` with an unknown room code fails with "Room not found"
and nothing at all is mutated: the whole state (room store, every room's
users and messages, socket associations) is returned unchanged. -/
theorem joinRoom_not_found_no_mutation (st : ServerState)
    (sid roomCode username : String) (h : jget st.rooms roomCode = none) :
    joinRoom st sid roomCode username = (st, Ack.err "Room not found", []) := by
  unfold joinRoom
  rw [h]

/-- Witness for C6. -/
theorem joinRoom_not_found_no_mutation_witness :
    joinRoom initialState "s1" "NOPE" "alice" =
      (initialState, Ack.err "Room not found", []) :=
  joinRoom_not_found_no_mutation initialState "s1" "NOPE" "alice" rfl

/-- C2: on a reachable state, `joinRoom` answers "Room is full" exactly
when the room exists with 4 distinct usernames, none of which is the
joining username; and a join whose username already has an entry always
succeeds, whatever the connection counts are. -/
theorem joinRoom_full_iff (st : ServerState) (h : Reachable st)
    (sid roomCode username : String) :
    ((joinRoom st sid roomCode username).2.1 = Ack.err "Room is full" ↔
      ∃ room, jget st.rooms roomCode = some room ∧
        room.users.length = 4 ∧ jget room.users username = none) ∧
    (∀ room ue, jget st.rooms roomCode = some room →
      jget room.users username = some ue →
      (joinRoom st sid roomCode username).2.1 = Ack.okRoom roomCode) := by
  have hinv := reachable_stateInv st h
  refine ⟨⟨?_, ?_⟩, ?_⟩
  · unfold joinRoom
    split
    · intro hfull
      simp at hfull
    · next room hroom =>
      split
      · next hcond =>
        intro _
        refine ⟨room, hroom, ?_, hcond.2⟩
        have h4 : room.users.length ≤ 4 := (hinv.2 _ (jget_mem hroom)).2.2.2.1
        have hkl : (jkeys room.users).length = room.users.length :=
          List.length_map _ _
        have := hcond.1
        omega
      · intro hfull
        simp at hfull
  · rintro ⟨room, hroom, hlen, hnone⟩
    unfold joinRoom
    split
    · next heq => rw [heq] at hroom; cases hroom
    · next room' hroom' =>
      obtain rfl := Option.some.inj (hroom'.symm.trans hroom)
      rw [if_pos ?_]
      · constructor
        · have hkl : (jkeys room'.users).length = room'.users.length :=
            List.length_map _ _
          omega
        · exact hnone
  · intro room ue hroom hue
    unfold joinRoom
    split
    · next heq => rw [heq] at hroom; cases hroom
    · next room' hroom' =>
      obtain rfl := Option.some.inj (hroom'.symm.trans hroom)
      split
      · next hcond => rw [hue] at hcond; cases hcond.2
      · rfl

/-- Witness for C2 at a concrete reachable one-user room. -/
theorem joinRoom_full_iff_witness :
    ((joinRoom (applyEvent initialState (Event.create "s1" "alice" "ABC123" 0)).1
        "s2" "ABC123" "bob").2.1 = Ack.err "Room is full" ↔
      ∃ room,
        jget (applyEvent initialState (Event.create "s1" "alice" "ABC123" 0)).1.rooms
          "ABC123" = some room ∧
        room.users.length = 4 ∧ jget room.users "bob" = none) ∧
    (∀ room ue,
      jget (applyEvent initialState (Event.create "s1" "alice" "ABC123" 0)).1.rooms
        "ABC123" = some room →
      jget room.users "bob" = some ue →
      (joinRoom (applyEvent initialState (Event.create "s1" "alice" "ABC123" 0)).1
        "s2" "ABC123" "bob").2.1 = Ack.okRoom "ABC123") :=
  joinRoom_full_iff _
    (Reachable.step initialState (Event.create "s1" "alice" "ABC123" 0)
      Reachable.init (List.not_mem_nil _)) "s2" "ABC123" "bob"

/-- C8: joining again with a socket already recorded for the username
succeeds and leaves the whole room store unchanged: the room's users
mapping, every connection list and the message buffer are exactly what
they were. -/
theorem joinRoom_idempotent (st : ServerState) (h : Reachable st)
    (sid roomCode username : String) (room : Room) (ue : UserEntry)
    (hroom : jget st.rooms roomCode = some room)
    (hue : jget room.users username = some ue)
    (hsid : sid ∈ ue.socketIds) :
    (joinRoom st sid roomCode username).2.1 = Ack.okRoom roomCode ∧
    (joinRoom st sid roomCode username).1.rooms = st.rooms := by
  have hinv := reachable_stateInv st h
  unfold joinRoom
  split
  · next heq => rw [heq] at hroom; cases hroom
  · next room' hroom' =>
    obtain rfl := Option.some.inj (hroom'.symm.trans hroom)
    split
    · next hcond => rw [hue] at hcond; cases hcond.2
    · split
      · next ue' hue' =>
        obtain rfl := Option.some.inj (hue'.symm.trans hue)
        rw [if_pos hsid]
        exact ⟨rfl, jset_eq_self hinv.1 hroom⟩
      · next hue' => rw [hue'] at hue; cases hue

/-- Witness for C8: re-joining with the creator's socket. -/
theorem joinRoom_idempotent_witness :
    (joinRoom (applyEvent initialState (Event.create "s1" "alice" "ABC123" 0)).1
      "s1" "ABC123" "alice").2.1 = Ack.okRoom "ABC123" ∧
    (joinRoom (applyEvent initialState (Event.create "s1" "alice" "ABC123" 0)).1
      "s1" "ABC123" "alice").1.rooms =
      (applyEvent initialState (Event.create "s1" "alice" "ABC123" 0)).1.rooms :=
  joinRoom_idempotent _
    (Reachable.step initialState (Event.create "s1" "alice" "ABC123" 0)
      Reachable.init (List.not_mem_nil _)) "s1" "ABC123" "alice"
    ⟨[("alice", ⟨"alice", ["s1"]⟩)], [], 0⟩ ⟨"alice", ["s1"]⟩ rfl rfl (by decide)

/-- C5: in a reachable state the buffer already holds at most 100
messages; an accepted message is appended, evicting exactly the oldest
entry when the buffer stands at 100 and keeping the order of the rest,
and the post-state buffer is again within the bound. -/
theorem message_buffer_bound (st : ServerState) (h : Reachable st)
    (sid roomCode username text : String) (now : Nat) (room : Room)
    (ue : UserEntry)
    (hroom : jget st.rooms roomCode = some room)
    (hue : jget room.users username = some ue)
    (hsid : sid ∈ ue.socketIds) :
    room.messages.length ≤ 100 ∧
    ∃ room',
      jget (chatMessage st sid roomCode username text now).1.rooms roomCode =
        some room' ∧
      room'.messages.length ≤ 100 ∧
      (room.messages.length = 100 →
        room'.messages = room.messages.drop 1 ++
          [{ username := username, message := jsTrim text, time := now }]) ∧
      (room.messages.length < 100 →
        room'.messages = room.messages ++
          [{ username := username, message := jsTrim text, time := now }]) := by
  have hinv := reachable_stateInv st h
  have h100 : room.messages.length ≤ 100 := (hinv.2 _ (jget_mem hroom)).2.2.2.2
  refine ⟨h100, ?_⟩
  unfold chatMessage
  split
  · next heq => rw [heq] at hroom; cases hroom
  · next room0 hroom0 =>
    obtain rfl := Option.some.inj (hroom0.symm.trans hroom)
    split
    · next heq => rw [heq] at hue; cases hue
    · next ue0 hue0 =>
      obtain rfl := Option.some.inj (hue0.symm.trans hue)
      rw [if_pos hsid]
      dsimp only
      refine ⟨_, jget_jset_self _ _ _, ?_, ?_, ?_⟩
      · split
        · next hgt =>
          rw [List.length_drop]
          omega
        · next hgt =>
          simp at hgt ⊢
          omega
      · intro hfullbuf
        have hcond : 100 <
            (room0.messages ++
              [(⟨username, jsTrim text, now⟩ : ChatMsg)]).length := by
          simp [hfullbuf]
        rw [if_pos hcond]
        have hlen : (room0.messages ++
            [(⟨username, jsTrim text, now⟩ : ChatMsg)]).length - 100 = 1 := by
          simp [hfullbuf]
        rw [hlen]
        exact List.drop_append_of_le_length (by omega)
      · intro hlt
        have hcond : ¬ 100 <
            (room0.messages ++
              [(⟨username, jsTrim text, now⟩ : ChatMsg)]).length := by
          simp
          omega
        rw [if_neg hcond]

/-- Witness for C5: an accepted message on a concrete reachable room. -/
theorem message_buffer_bound_witness :
    (⟨[("alice", ⟨"alice", ["s1"]⟩)], [], 0⟩ : Room).messages.length ≤ 100 ∧
    ∃ room',
      jget (chatMessage (applyEvent initialState
          (Event.create "s1" "alice" "ABC123" 0)).1
          "s1" "ABC123" "alice" "hi" 7).1.rooms "ABC123" = some room' ∧
      room'.messages.length ≤ 100 ∧
      ((⟨[("alice", ⟨"alice", ["s1"]⟩)], [], 0⟩ : Room).messages.length = 100 →
        room'.messages =
          (⟨[("alice", ⟨"alice", ["s1"]⟩)], [], 0⟩ : Room).messages.drop 1 ++
            [{ username := "alice", message := jsTrim "hi", time := 7 }]) ∧
      ((⟨[("alice", ⟨"alice", ["s1"]⟩)], [], 0⟩ : Room).messages.length < 100 →
        room'.messages =
          (⟨[("alice", ⟨"alice", ["s1"]⟩)], [], 0⟩ : Room).messages ++
            [{ username := "alice", message := jsTrim "hi", time := 7 }]) :=
  message_buffer_bound _
    (Reachable.step initialState (Event.create "s1" "alice" "ABC123" 0)
      Reachable.init (List.not_mem_nil _)) "s1" "ABC123" "alice" "hi" 7
    ⟨[("alice", ⟨"alice", ["s1"]⟩)], [], 0⟩ ⟨"alice", ["s1"]⟩ rfl rfl (by decide)

theorem jsTrim_of_all_whitespace (s : String)
    (hws : ∀ c ∈ s.data, c.isWhitespace) : jsTrim s = "" := by
  unfold jsTrim
  have h1 : s.data.dropWhile Char.isWhitespace = [] :=
    List.dropWhile_eq_nil_iff.mpr hws
  rw [h1]
  rfl

/-- C9: an accepted chat message whose text is all whitespace is still
appended and broadcast, with its stored text equal to the empty string:
trimming is applied but an empty-after-trim message is not rejected. -/
theorem chat_whitespace_message (st : ServerState)
    (sid roomCode username text : String) (now : Nat) (room : Room)
    (ue : UserEntry)
    (hroom : jget st.rooms roomCode = some room)
    (hue : jget room.users username = some ue)
    (hsid : sid ∈ ue.socketIds)
    (hws : ∀ c ∈ text.data, c.isWhitespace) :
    ∃ room',
      jget (chatMessage st sid roomCode username text now).1.rooms roomCode =
        some room' ∧
      room'.messages.getLast? =
        some { username := username, message := "", time := now } ∧
      (chatMessage st sid roomCode username text now).2 =
        [Emit.chatMessage roomCode
          { username := username, message := "", time := now }] := by
  unfold chatMessage
  split
  · next heq => rw [heq] at hroom; cases hroom
  · next room0 hroom0 =>
    obtain rfl := Option.some.inj (hroom0.symm.trans hroom)
    split
    · next heq => rw [heq] at hue; cases hue
    · next ue0 hue0 =>
      obtain rfl := Option.some.inj (hue0.symm.trans hue)
      rw [if_pos hsid]
      dsimp only
      rw [jsTrim_of_all_whitespace text hws]
      refine ⟨_, jget_jset_self _ _ _, ?_, rfl⟩
      split
      · next hgt =>
        rw [List.drop_append_of_le_length (by simp at hgt ⊢)]
        exact List.getLast?_concat _
      · exact List.getLast?_concat _

/-- Witness for C9: a single-space message in a concrete room. -/
theorem chat_whitespace_message_witness :
    ∃ room',
      jget (chatMessage (applyEvent initialState
          (Event.create "s1" "alice" "ABC123" 0)).1
          "s1" "ABC123" "alice" " " 7).1.rooms "ABC123" = some room' ∧
      room'.messages.getLast? =
        some { username := "alice", message := "", time := 7 } ∧
      (chatMessage (applyEvent initialState
          (Event.create "s1" "alice" "ABC123" 0)).1
          "s1" "ABC123" "alice" " " 7).2 =
        [Emit.chatMessage "ABC123"
          { username := "alice", message := "", time := 7 }] :=
  chat_whitespace_message _ "s1" "ABC123" "alice" " " 7
    ⟨[("alice", ⟨"alice", ["s1"]⟩)], [], 0⟩ ⟨"alice", ["s1"]⟩ rfl rfl
    (by decide) (by decide)

/-- C7 counterexample: `Math.random()` can return exactly 0.5, which
`toString(36)` prints as "0.i" (base-36 digit 18 is the character "i");
`substring(2, 8)` then keeps the single character "i", so the created
room's code is "I", of length 1 rather than 6.  The oracle `fun _ => [18]`
is the digit list `toString(36)` prints for that value. -/
theorem roomCode_length_counterexample :
    ∃ (rand : Nat → List (Fin 36)) (res : ServerState × Ack × List Emit),
      createRoom rand 1 initialState "s1" "alice" 0 = some res ∧
      res.2.1 = Ack.okRoom "I" ∧ ¬ ("I".length = 6) := by
  refine ⟨fun _ => [18], createRoomCore initialState "s1" "alice" "I" 0,
    ?_, rfl, by decide⟩
  rfl

/-- C7 amended: every room code a successful `createRoom` hands out is at
most 6 characters (exactly 6 whenever every sampled random value prints
at least six base-36 fraction digits, the overwhelmingly common case),
consists only of uppercase letters and digits, and is distinct from every
code in the store at creation time; the loop retries on collision. -/
theorem roomCode_format (rand : Nat → List (Fin 36)) (fuel : Nat)
    (st : ServerState) (sid username : String) (now : Nat)
    (res : ServerState × Ack × List Emit)
    (h : createRoom rand fuel st sid username now = some res) :
    ∃ code, res.2.1 = Ack.okRoom code ∧ code.length ≤ 6 ∧
      ((∀ m, 6 ≤ (rand m).length) → code.length = 6) ∧
      (∀ c ∈ code.data, isUpperAlnum c) ∧ code ∉ jkeys st.rooms := by
  unfold createRoom at h
  obtain ⟨code, hgen, hres⟩ := Option.map_eq_some'.mp h
  obtain ⟨hfresh, hlen, hchars, m, hm⟩ :=
    genRoomCode_spec rand st.rooms 0 fuel code hgen
  refine ⟨code, ?_, hlen, ?_, hchars, hfresh⟩
  · rw [← hres]
    rfl
  · intro hdig
    rw [hm]
    exact codeOfRandom_length_eq _ (hdig m)

/-- Witness for C7 amended, with an oracle printing six digits. -/
theorem roomCode_format_witness :
    ∃ code,
      (createRoomCore initialState "s1" "alice" "012345" 0).2.1 =
        Ack.okRoom code ∧
      code.length ≤ 6 ∧
      ((∀ m, 6 ≤ ((fun (_ : Nat) => ([0, 1, 2, 3, 4, 5] : List (Fin 36))) m).length) →
        code.length = 6) ∧
      (∀ c ∈ code.data, isUpperAlnum c) ∧ code ∉ jkeys initialState.rooms :=
  roomCode_format (fun (_ : Nat) => ([0, 1, 2, 3, 4, 5] : List (Fin 36))) 1
    initialState "s1" "alice" 0
    (createRoomCore initialState "s1" "alice" "012345" 0) rfl

/-- C10: a `createRoom` issued by a connection already attached to room A
as user u replaces the connection's association with the new room but
leaves room A entirely unchanged: u's entry in A still lists this
connection id, A's other users and message buffer are untouched, and no
`roomUpdate` is broadcast to A. -/
theorem createRoom_frame (st : ServerState) (sid uOld uNew codeA code : String)
    (now : Nat) (roomA : Room) (ueA : UserEntry)
    (_hattach : jget st.sockets sid = some ⟨some codeA, some uOld⟩)
    (hA : jget st.rooms codeA = some roomA)
    (hue : jget roomA.users uOld = some ueA)
    (hsid : sid ∈ ueA.socketIds)
    (hfresh : code ∉ jkeys st.rooms) :
    jget (createRoomCore st sid uNew code now).1.rooms codeA = some roomA ∧
    jget (createRoomCore st sid uNew code now).1.sockets sid =
      some ⟨some code, some uNew⟩ ∧
    (∀ us, Emit.roomUpdate codeA us ∉ (createRoomCore st sid uNew code now).2.2) ∧
    ∃ ue, jget roomA.users uOld = some ue ∧ sid ∈ ue.socketIds := by
  have hne : codeA ≠ code := fun e => hfresh (e ▸ jget_mem_keys hA)
  refine ⟨?_, jget_jset_self _ _ _, ?_, ueA, hue, hsid⟩
  · exact (jget_jset_ne st.rooms code codeA _ hne).trans hA
  · intro us hmem
    simp only [createRoomCore, List.mem_singleton, Emit.roomUpdate.injEq] at hmem
    exact hne hmem.1

/-- Witness for C10: the creator of room "ABC123" opens a second room. -/
theorem createRoom_frame_witness :
    jget (createRoomCore (applyEvent initialState
        (Event.create "s1" "alice" "ABC123" 0)).1
        "s1" "bob" "XYZ789" 9).1.rooms "ABC123" =
      some ⟨[("alice", ⟨"alice", ["s1"]⟩)], [], 0⟩ ∧
    jget (createRoomCore (applyEvent initialState
        (Event.create "s1" "alice" "ABC123" 0)).1
        "s1" "bob" "XYZ789" 9).1.sockets "s1" =
      some ⟨some "XYZ789", some "bob"⟩ ∧
    (∀ us, Emit.roomUpdate "ABC123" us ∉
      (createRoomCore (applyEvent initialState
        (Event.create "s1" "alice" "ABC123" 0)).1
        "s1" "bob" "XYZ789" 9).2.2) ∧
    ∃ ue, jget (⟨[("alice", ⟨"alice", ["s1"]⟩)], [], 0⟩ : Room).users "alice" =
      some ue ∧ "s1" ∈ ue.socketIds :=
  createRoom_frame _ "s1" "alice" "bob" "ABC123" "XYZ789" 9
    ⟨[("alice", ⟨"alice", ["s1"]⟩)], [], 0⟩ ⟨"alice", ["s1"]⟩
    rfl rfl rfl (by decide) (by decide)

end Server
